import Mathlib

/-!
Verification of the snagbot message-to-response pipeline against its source.

The Go sources are shallowly embedded: Go `float64` currency arithmetic is
modelled with exact rationals (`ℚ`), Go `int` with `ℤ`, Go strings with
Lean `String` (a list of characters; the sources only manipulate ASCII,
where Go's byte-level slicing agrees with character-level slicing).
Fallible Go functions returning `(T, error)` are modelled with `Except`;
methods that may mutate the receiver return the new state explicitly.
-/

set_option autoImplicit false

namespace Snagbot

instance {ε α : Type} [DecidableEq ε] [DecidableEq α] : DecidableEq (Except ε α) :=
  fun a b =>
    match a, b with
    | .error e1, .error e2 =>
      if h : e1 = e2 then .isTrue (by rw [h]) else .isFalse (fun hc => h (Except.error.inj hc))
    | .error _, .ok _ => .isFalse (fun hc => Except.noConfusion hc)
    | .ok _, .error _ => .isFalse (fun hc => Except.noConfusion hc)
    | .ok v1, .ok v2 =>
      if h : v1 = v2 then .isTrue (by rw [h]) else .isFalse (fun hc => h (Except.ok.inj hc))

/-- Error kinds of internal/errors/errors.go (the sentinel error values);
only the kinds reachable from the modelled code are included. -/
inductive AppErr where
  | invalidDollarValue
  | invalidRequest
  deriving DecidableEq, Repr

/-- Truncation of a rational toward zero, modelling Go's `int(q)` conversion
from `float64` to `int`. -/
def ratTrunc (q : ℚ) : ℤ :=
  if q < 0 then ⌈q⌉ else ⌊q⌋

/-- CalculateItemCount (internal/calculator/calculator.go:84-104): validates
inputs, then returns `ceil (total / pricePerItem)`. -/
def CalculateItemCount (total pricePerItem : ℚ) : Except AppErr ℤ :=
  if total < 0 then .error .invalidDollarValue
  else if pricePerItem ≤ 0 then .error .invalidDollarValue
  else .ok ⌈total / pricePerItem⌉

/-- IsExactDivision (internal/calculator/calculator.go:107-115): true iff the
quotient equals its own truncation to an integer. -/
def IsExactDivision (total pricePerItem : ℚ) : Bool :=
  if pricePerItem ≤ 0 then false
  else
    let quotient := total / pricePerItem
    decide (quotient = (ratTrunc quotient : ℚ))

/-- The conversion stage of ProcessMessage
(internal/calculator/calculator.go:164-177): totals below the unit price take
the explicit zero branch (formatted with `isExact = true`); otherwise the
exactness flag and the ceiling count are computed. -/
def convert (total pricePerItem : ℚ) : Except AppErr (ℤ × Bool) :=
  if total < pricePerItem then .ok (0, true)
  else
    let isExact := IsExactDivision total pricePerItem
    (CalculateItemCount total pricePerItem).map (fun count => (count, isExact))

/-- C2: for `0 <= total < unit_price` the conversion stage of the pipeline
produces item count 0 (the explicit zero case), while bare
`CalculateItemCount` would give the ceiling value 1 whenever `0 < total`. -/
theorem convert_zero_boundary (total pricePerItem : ℚ)
    (h0 : 0 ≤ total) (h1 : total < pricePerItem) :
    convert total pricePerItem = .ok (0, true) ∧
      (0 < total → CalculateItemCount total pricePerItem = .ok 1) := by
  have hp : 0 < pricePerItem := lt_of_le_of_lt h0 h1
  constructor
  · unfold convert
    rw [if_pos h1]
  · intro ht
    unfold CalculateItemCount
    rw [if_neg (not_lt.mpr h0), if_neg (not_le.mpr hp)]
    have hq0 : 0 < total / pricePerItem := div_pos ht hp
    have hq1 : total / pricePerItem ≤ 1 := le_of_lt ((div_lt_one hp).mpr h1)
    have : ⌈total / pricePerItem⌉ = 1 := by
      rw [Int.ceil_eq_iff]
      constructor
      · simpa using hq0
      · simpa using hq1
    rw [this]

theorem convert_zero_boundary_witness :
    convert (1/2) 1 = .ok (0, true) ∧ CalculateItemCount (1/2) 1 = .ok 1 := by
  refine ⟨(convert_zero_boundary (1/2) 1 (by norm_num) (by norm_num)).1,
    (convert_zero_boundary (1/2) 1 (by norm_num) (by norm_num)).2 (by norm_num)⟩

/-- C3: for every positive unit price and integer `n >= 1`, converting the
total `n * unit_price` yields count `n` with the exact-division flag set. -/
theorem convert_multiple_roundtrip (pricePerItem : ℚ) (n : ℤ)
    (hp : 0 < pricePerItem) (hn : 1 ≤ n) :
    convert ((n : ℚ) * pricePerItem) pricePerItem = .ok (n, true) := by
  have hn1 : (1 : ℚ) ≤ (n : ℚ) := by exact_mod_cast hn
  have hge : pricePerItem ≤ (n : ℚ) * pricePerItem := by
    calc pricePerItem = 1 * pricePerItem := (one_mul _).symm
    _ ≤ (n : ℚ) * pricePerItem := mul_le_mul_of_nonneg_right hn1 hp.le
  have htot : 0 ≤ (n : ℚ) * pricePerItem := le_trans hp.le hge
  have hquot : (n : ℚ) * pricePerItem / pricePerItem = (n : ℚ) :=
    mul_div_cancel_right₀ _ (ne_of_gt hp)
  unfold convert
  rw [if_neg (not_lt.mpr hge)]
  unfold CalculateItemCount IsExactDivision
  rw [if_neg (not_lt.mpr htot), if_neg (not_le.mpr hp), if_neg (not_le.mpr hp)]
  simp only [hquot]
  have htr : ratTrunc (n : ℚ) = n := by
    unfold ratTrunc
    rw [if_neg (not_lt.mpr (le_trans zero_le_one hn1)), Int.floor_intCast]
  rw [htr, Int.ceil_intCast]
  simp [Except.map]

theorem convert_multiple_roundtrip_witness :
    convert ((3 : ℤ) * (7/2 : ℚ)) (7/2) = .ok (3, true) :=
  convert_multiple_roundtrip (7/2) 3 (by norm_num) (by norm_num)

/-- Go `strings.ToLower`, at the character level (the sources only pass
ASCII item names). -/
def toLowerStr (s : String) : String :=
  String.mk (s.data.map Char.toLower)

/-- Go `strings.HasSuffix`. -/
def hasSuffix (s suf : String) : Bool :=
  suf.data.isSuffixOf s.data

/-- getSingularForm (internal/calculator/calculator.go:186-202). -/
def getSingularForm (itemName : String) : String :=
  if hasSuffix (toLowerStr itemName) ("s") then
    if hasSuffix (toLowerStr itemName) ("ies") then
      String.mk (itemName.data.take (itemName.data.length - 3)) ++ "y"
    else if hasSuffix (toLowerStr itemName) ("es") then
      String.mk (itemName.data.take (itemName.data.length - 2))
    else
      String.mk (itemName.data.take (itemName.data.length - 1))
  else itemName

/-- getPluralForm (internal/calculator/calculator.go:205-219).  Note the code
turns any trailing `y` into `ies`, with no consonant/vowel distinction. -/
def getPluralForm (itemName : String) : String :=
  if hasSuffix (toLowerStr itemName) ("s") then itemName
  else if hasSuffix (toLowerStr itemName) ("y") then
    String.mk (itemName.data.take (itemName.data.length - 1)) ++ "ies"
  else itemName ++ "s"

/-- FormatResponse (internal/calculator/calculator.go:119-142): empty item
names fall back to "item"; count 0 takes the zero case; otherwise the
"nearly" marker is inserted exactly when the division was not exact. -/
def FormatResponse (count : ℤ) (itemName : String) (isExactDivision : Bool) : String :=
  let name := if itemName = "" then ("item") else itemName
  if count ≤ 0 then
    "That wouldn't even buy a single " ++ getSingularForm name ++ "!"
  else
    let pre := if isExactDivision then ("That's ") else ("That's nearly ")
    if count = 1 then pre ++ "1 " ++ getSingularForm name ++ "!"
    else pre ++ toString count ++ " " ++ getPluralForm name ++ "!"

theorem singleton_suffix_iff {α : Type} (l : List α) (c : α) :
    [c] <:+ l ↔ l.getLast? = some c := by
  constructor
  · rintro ⟨t, ht⟩
    rw [← ht, List.getLast?_append]
    rfl
  · intro h
    rcases List.getLast?_eq_some_iff.mp h with ⟨ys, hys⟩
    exact ⟨ys, hys.symm⟩

theorem hasSuffix_toLower_iff (s : String) (c : Char) :
    hasSuffix (toLowerStr s) (String.mk [c]) = true ↔
      s.data.getLast?.map Char.toLower = some c := by
  unfold hasSuffix toLowerStr
  rw [List.isSuffixOf_iff_suffix]
  show [c] <:+ s.data.map Char.toLower ↔ _
  rw [singleton_suffix_iff, List.getLast?_map]

/-- C4 (amended to non-empty unit names): the formatter's three cases, with
the "nearly " marker present exactly when the division is not exact. -/
theorem FormatResponse_cases (itemName : String) (hne : itemName ≠ "")
    (isExact : Bool) (count : ℤ) (hc : 1 < count) :
    FormatResponse 0 itemName isExact =
      "That wouldn't even buy a single " ++ getSingularForm itemName ++ "!" ∧
    FormatResponse 1 itemName isExact =
      "That's " ++ (if isExact then ("") else ("nearly ")) ++ "1 " ++
        getSingularForm itemName ++ "!" ∧
    FormatResponse count itemName isExact =
      "That's " ++ (if isExact then ("") else ("nearly ")) ++ toString count ++ " " ++
        getPluralForm itemName ++ "!" := by
  refine ⟨?_, ?_, ?_⟩
  · unfold FormatResponse
    rw [if_neg hne, if_pos (le_refl (0 : ℤ))]
  · unfold FormatResponse
    rw [if_neg hne, if_neg (by norm_num : ¬(1 : ℤ) ≤ 0), if_pos rfl]
    cases isExact
    · rfl
    · rfl
  · unfold FormatResponse
    rw [if_neg hne, if_neg (by omega : ¬count ≤ 0), if_neg (by omega : ¬count = 1)]
    cases isExact
    · rfl
    · rfl

theorem FormatResponse_cases_witness :
    FormatResponse 2 ("snag") true = "That's 2 snags!" := by
  have h := (FormatResponse_cases ("snag") (by decide) true 2 (by norm_num)).2.2
  rw [h]
  decide

/-- C4 counterexample: with the empty unit name the formatter substitutes the
fallback name "item", so the output is not the claimed template instance. -/
theorem FormatResponse_empty_name_cex :
    FormatResponse 1 ("") true ≠ "That's " ++ "1 " ++ getSingularForm ("") ++ "!" ∧
    FormatResponse 1 ("") true = "That's 1 item!" := by
  decide

/-- C5 (amended): for unit names not ending in s, any trailing y
(case-insensitively) is replaced by "ies" regardless of the preceding
letter; only names not ending in y get a plain appended s. -/
theorem getPluralForm_no_s (itemName : String)
    (hs : hasSuffix (toLowerStr itemName) ("s") = false) :
    (itemName.data.getLast?.map Char.toLower = some 'y' →
      getPluralForm itemName =
        String.mk (itemName.data.take (itemName.data.length - 1)) ++ "ies") ∧
    (itemName.data.getLast?.map Char.toLower ≠ some 'y' →
      getPluralForm itemName = itemName ++ "s") := by
  constructor
  · intro hy
    have hy' : hasSuffix (toLowerStr itemName) ("y") = true :=
      (hasSuffix_toLower_iff itemName 'y').mpr hy
    unfold getPluralForm
    rw [hs, hy']
    simp
  · intro hy
    have hy' : hasSuffix (toLowerStr itemName) ("y") = false := by
      cases h : hasSuffix (toLowerStr itemName) ("y")
      · rfl
      · exact absurd ((hasSuffix_toLower_iff itemName 'y').mp h) hy
    unfold getPluralForm
    rw [hs, hy']
    simp

theorem getPluralForm_no_s_witness :
    getPluralForm ("candy") = "candies" ∧ getPluralForm ("ute") = "utes" := by
  constructor
  · have h := (getPluralForm_no_s ("candy") (by decide)).1 (by decide)
    rw [h]
    decide
  · exact (getPluralForm_no_s ("ute") (by decide)).2 (by decide)

/-- C5 counterexample: "monkey" ends in vowel-plus-y and does not end in s,
yet the code still rewrites the y, producing "monkeies" rather than the
claimed plain-s form "monkeys". -/
theorem getPluralForm_vowel_y_cex :
    hasSuffix (toLowerStr ("monkey")) ("s") = false ∧
    getPluralForm ("monkey") = "monkeies" ∧
    getPluralForm ("monkey") ≠ "monkeys" := by
  decide

/-- ChannelConfig (pkg/models/models.go), restricted to the fields the
in-memory store reads and writes. -/
structure ChannelConfig where
  channelID : String
  itemName : String
  itemPrice : ℚ
  deriving DecidableEq, Repr

/-- The application defaults carried by internal/config (DefaultItemName,
DefaultItemPrice). -/
structure AppConfig where
  defaultItemName : String
  defaultItemPrice : ℚ
  deriving DecidableEq, Repr

/-- InMemoryConfigStore (internal/slack/store.go:20-25): the `configs` map is
modelled as an association list with Go-map semantics (lookup finds the
binding for a key, insertion replaces it, deletion removes it). -/
structure InMemoryConfigStore where
  configs : List (String × ChannelConfig)
  cfg : Option AppConfig
  deriving DecidableEq, Repr

def lookupEntry (k : String) : List (String × ChannelConfig) → Option ChannelConfig
  | [] => none
  | (k', v) :: rest => if k' = k then some v else lookupEntry k rest

def insertEntry (k : String) (v : ChannelConfig) :
    List (String × ChannelConfig) → List (String × ChannelConfig)
  | [] => [(k, v)]
  | (k', v') :: rest =>
    if k' = k then (k, v) :: rest else (k', v') :: insertEntry k v rest

def eraseEntry (k : String) :
    List (String × ChannelConfig) → List (String × ChannelConfig)
  | [] => []
  | (k', v') :: rest =>
    if k' = k then eraseEntry k rest else (k', v') :: eraseEntry k rest

/-- Default unit name used by GetConfig (store.go:62-73): the application
default when a config was injected, the hardcoded fallback otherwise. -/
def storeDefaultName (s : InMemoryConfigStore) : String :=
  match s.cfg with
  | some c => c.defaultItemName
  | none => "Bunnings snags"

/-- Default unit price used by GetConfig (store.go:62-73). -/
def storeDefaultPrice (s : InMemoryConfigStore) : ℚ :=
  match s.cfg with
  | some c => c.defaultItemPrice
  | none => 7/2

/-- GetConfig (store.go:44-87): error on the empty channel id, a copy of the
stored config when present, and otherwise a fresh default config that is not
persisted back into the store. -/
def GetConfig (s : InMemoryConfigStore) (channelID : String) :
    Except AppErr ChannelConfig :=
  if channelID = "" then .error .invalidRequest
  else
    match lookupEntry channelID s.configs with
    | some c =>
      .ok { channelID := c.channelID, itemName := c.itemName, itemPrice := c.itemPrice }
    | none =>
      .ok { channelID := channelID, itemName := storeDefaultName s,
            itemPrice := storeDefaultPrice s }

/-- UpdateConfig (store.go:90-126): validation errors leave the store as it
was; on success the channel's entry is created or its name and price fields
are overwritten in place. -/
def UpdateConfig (s : InMemoryConfigStore) (channelID itemName : String)
    (itemPrice : ℚ) : InMemoryConfigStore × Option AppErr :=
  if channelID = "" then (s, some .invalidRequest)
  else if itemPrice ≤ 0 then (s, some .invalidRequest)
  else if itemName = "" then (s, some .invalidRequest)
  else
    let base : ChannelConfig :=
      match lookupEntry channelID s.configs with
      | some c => c
      | none => { channelID := channelID, itemName := "", itemPrice := 0 }
    let newCfg : ChannelConfig :=
      { base with itemName := itemName, itemPrice := itemPrice }
    ({ s with configs := insertEntry channelID newCfg s.configs }, none)

/-- ResetConfig (store.go:129-149): error on the empty channel id, a no-op
when no custom config exists, and deletion of the entry otherwise. -/
def ResetConfig (s : InMemoryConfigStore) (channelID : String) :
    InMemoryConfigStore × Option AppErr :=
  if channelID = "" then (s, some .invalidRequest)
  else
    match lookupEntry channelID s.configs with
    | none => (s, none)
    | some _ => ({ s with configs := eraseEntry channelID s.configs }, none)

/-- ConfigExists (store.go:152-163). -/
def ConfigExists (s : InMemoryConfigStore) (channelID : String) : Bool :=
  if channelID = "" then false
  else (lookupEntry channelID s.configs).isSome

theorem lookupEntry_insertEntry_self (k : String) (v : ChannelConfig)
    (l : List (String × ChannelConfig)) :
    lookupEntry k (insertEntry k v l) = some v := by
  induction l with
  | nil => simp [insertEntry, lookupEntry]
  | cons hd tl ih =>
    obtain ⟨k', v'⟩ := hd
    by_cases h : k' = k
    · simp [insertEntry, lookupEntry, h]
    · simp [insertEntry, lookupEntry, h, ih]

theorem lookupEntry_eraseEntry_self (k : String)
    (l : List (String × ChannelConfig)) :
    lookupEntry k (eraseEntry k l) = none := by
  induction l with
  | nil => rfl
  | cons hd tl ih =>
    obtain ⟨k', v'⟩ := hd
    by_cases h : k' = k
    · simp [eraseEntry, h, ih]
    · simp [eraseEntry, lookupEntry, h, ih]

/-- C6: update on a non-empty channel id rejects non-positive prices and
empty names leaving the store unchanged, and on success overwrites the
channel's config so that a subsequent exists check succeeds. -/
theorem UpdateConfig_contract (s : InMemoryConfigStore)
    (channelID itemName : String) (itemPrice : ℚ) (hcid : channelID ≠ "") :
    (itemPrice ≤ 0 ∨ itemName = "" →
      UpdateConfig s channelID itemName itemPrice = (s, some .invalidRequest)) ∧
    (0 < itemPrice → itemName ≠ "" →
      (UpdateConfig s channelID itemName itemPrice).2 = none ∧
      (lookupEntry channelID
          (UpdateConfig s channelID itemName itemPrice).1.configs).map
        (fun c => (c.itemName, c.itemPrice)) = some (itemName, itemPrice) ∧
      ConfigExists (UpdateConfig s channelID itemName itemPrice).1 channelID
        = true) := by
  constructor
  · intro h
    unfold UpdateConfig
    rw [if_neg hcid]
    rcases h with hp | hn
    · rw [if_pos hp]
    · by_cases hp : itemPrice ≤ 0
      · rw [if_pos hp]
      · rw [if_neg hp, if_pos hn]
  · intro hp hn
    unfold UpdateConfig
    rw [if_neg hcid, if_neg (not_le.mpr hp), if_neg hn]
    refine ⟨rfl, ?_, ?_⟩
    · simp only [lookupEntry_insertEntry_self, Option.map_some]
      rfl
    · simp only [ConfigExists, if_neg hcid, lookupEntry_insertEntry_self,
        Option.isSome_some]

theorem UpdateConfig_contract_witness :
    UpdateConfig ⟨[], none⟩ ("C1") ("") 5 = (⟨[], none⟩, some .invalidRequest) ∧
    ConfigExists (UpdateConfig ⟨[], none⟩ ("C1") ("coffee") 5).1 ("C1") = true := by
  constructor
  · exact (UpdateConfig_contract ⟨[], none⟩ ("C1") ("") 5 (by decide)).1 (Or.inr rfl)
  · exact ((UpdateConfig_contract ⟨[], none⟩ ("C1") ("coffee") 5 (by decide)).2
      (by norm_num) (by decide)).2.2

/-- C7: reset on a non-empty channel id always succeeds, removes any custom
config (so exists turns false and get returns the store defaults), is a
no-op when nothing was stored, and is idempotent. -/
theorem ResetConfig_contract (s : InMemoryConfigStore) (channelID : String)
    (hcid : channelID ≠ "") :
    (ResetConfig s channelID).2 = none ∧
    ConfigExists (ResetConfig s channelID).1 channelID = false ∧
    GetConfig (ResetConfig s channelID).1 channelID =
      .ok { channelID := channelID, itemName := storeDefaultName s,
            itemPrice := storeDefaultPrice s } ∧
    (ConfigExists s channelID = false → (ResetConfig s channelID).1 = s) ∧
    ResetConfig (ResetConfig s channelID).1 channelID =
      ((ResetConfig s channelID).1, none) := by
  cases h : lookupEntry channelID s.configs with
  | none =>
    have hr : ResetConfig s channelID = (s, none) := by
      simp only [ResetConfig, if_neg hcid, h]
    refine ⟨by rw [hr], ?_, ?_, fun _ => by rw [hr], by rw [hr]; exact hr⟩
    · simp only [hr, ConfigExists, if_neg hcid, h, Option.isSome_none]
    · simp only [hr, GetConfig, if_neg hcid, h]
  | some c =>
    have hr : ResetConfig s channelID =
        ({ s with configs := eraseEntry channelID s.configs }, none) := by
      simp only [ResetConfig, if_neg hcid, h]
    refine ⟨by rw [hr], ?_, ?_, ?_, ?_⟩
    · simp only [hr, ConfigExists, if_neg hcid, lookupEntry_eraseEntry_self,
        Option.isSome_none]
    · simp only [hr, GetConfig, if_neg hcid, lookupEntry_eraseEntry_self]
      rfl
    · intro hfalse
      have htrue : ConfigExists s channelID = true := by
        simp only [ConfigExists, if_neg hcid, h, Option.isSome_some]
      rw [htrue] at hfalse
      cases hfalse
    · simp only [hr, ResetConfig, if_neg hcid, h, lookupEntry_eraseEntry_self]

theorem ResetConfig_contract_witness :
    (ResetConfig ⟨[(("C1"), ⟨"C1", "coffee", 5⟩)], none⟩ ("C1")).2 = none ∧
    ConfigExists (ResetConfig ⟨[(("C1"), ⟨"C1", "coffee", 5⟩)], none⟩ ("C1")).1 ("C1")
      = false := by
  have h := ResetConfig_contract ⟨[(("C1"), ⟨"C1", "coffee", 5⟩)], none⟩ ("C1") (by decide)
  exact ⟨h.1, h.2.1⟩

/-- C9: every store operation short-circuits on the empty channel id before
touching the map: get, update and reset return an error with the store left
exactly as it was, and exists returns false. -/
theorem emptyChannelID_ops (s : InMemoryConfigStore) (itemName : String)
    (itemPrice : ℚ) :
    GetConfig s ("") = .error .invalidRequest ∧
    UpdateConfig s ("") itemName itemPrice = (s, some .invalidRequest) ∧
    ResetConfig s ("") = (s, some .invalidRequest) ∧
    ConfigExists s ("") = false := by
  refine ⟨?_, ?_, ?_, ?_⟩ <;> rfl

/-- Anchored attempt of the Go regex used by ExtractDollarValues
(internal/calculator/calculator.go:23): a dollar sign, one or more digits,
optionally a dot followed by one or two digits, all maximal-munch.  Returns
the whole match (including the dollar sign) and the numeric submatch. -/
def matchDollarAt (l : List Char) : Option (List Char × List Char) :=
  match l with
  | '$' :: rest =>
    let ds := rest.takeWhile Char.isDigit
    if ds = [] then none
    else
      match rest.drop ds.length with
      | '.' :: t =>
        let fs := (t.takeWhile Char.isDigit).take 2
        if fs = [] then some ('$' :: ds, ds)
        else some ('$' :: (ds ++ '.' :: fs), ds ++ '.' :: fs)
      | _ => some ('$' :: ds, ds)
  | _ => none

/-- One step per character of Go's FindAllStringSubmatch scan: successive
leftmost matches, resuming after the end of each match (non-overlapping).
The fuel argument only bounds the number of steps; the scan consumes at
least one character per step, so the input length is always enough fuel. -/
def scanAux : Nat → List Char → List (List Char × List Char)
  | 0, _ => []
  | _, [] => []
  | fuel + 1, c :: rest =>
    match matchDollarAt (c :: rest) with
    | some (m, g) => (m, g) :: scanAux fuel (rest.drop (m.length - 1))
    | none => scanAux fuel rest

/-- All submatches of the dollar-value regex in the text, in scan order,
duplicates included (calculator.go:24). -/
def findAllSubmatches (l : List Char) : List (List Char × List Char) :=
  scanAux l.length l

/-- Numeric value of a digit list. -/
def digitsToNat (l : List Char) : Nat :=
  l.foldl (fun acc c => acc * 10 + (c.toNat - 48)) 0

/-- Value of a matched numeric submatch (digits, optionally a dot and one or
two digits), as the exact rational it denotes; models the always-successful
strconv.ParseFloat call on such a token (calculator.go:38). -/
def parseDecimal (g : List Char) : ℚ :=
  let intPart := g.takeWhile Char.isDigit
  match g.drop intPart.length with
  | '.' :: fs => (digitsToNat intPart : ℚ) + (digitsToNat fs : ℚ) / (10 ^ fs.length : ℚ)
  | _ => (digitsToNat intPart : ℚ)

/-- The seen-map filter of ExtractDollarValues (calculator.go:27-47): keeps a
match only when its whole literal token was not seen before. -/
def dedupByToken :
    List (List Char × List Char) → List (List Char) → List (List Char × List Char)
  | [], _ => []
  | m :: rest, seen =>
    if m.1 ∈ seen then dedupByToken rest seen
    else m :: dedupByToken rest (m.1 :: seen)

/-- ExtractDollarValues (internal/calculator/calculator.go:15-56). -/
def ExtractDollarValues (text : String) : List ℚ :=
  if text = "" then []
  else (dedupByToken (findAllSubmatches text.data) []).map (fun mg => parseDecimal mg.2)

theorem dedupByToken_tokens_nodup (ms : List (List Char × List Char))
    (seen : List (List Char)) :
    ((dedupByToken ms seen).map Prod.fst).Nodup ∧
    ∀ t ∈ (dedupByToken ms seen).map Prod.fst, t ∉ seen := by
  induction ms generalizing seen with
  | nil => simp [dedupByToken]
  | cons m rest ih =>
    by_cases h : m.1 ∈ seen
    · simp only [dedupByToken, if_pos h]
      exact ih seen
    · simp only [dedupByToken, if_neg h, List.map_cons, List.nodup_cons]
      refine ⟨⟨?_, (ih (m.1 :: seen)).1⟩, ?_⟩
      · intro hmem
        exact ((ih (m.1 :: seen)).2 _ hmem) (List.mem_cons_self _ _)
      · intro t ht
        rcases List.mem_cons.mp ht with h1 | h2
        · subst h1
          exact h
        · intro hts
          exact (ih (m.1 :: seen)).2 _ h2 (List.mem_cons_of_mem _ hts)

theorem dedupByToken_sublist (ms : List (List Char × List Char))
    (seen : List (List Char)) :
    List.Sublist (dedupByToken ms seen) ms := by
  induction ms generalizing seen with
  | nil => simp [dedupByToken]
  | cons m rest ih =>
    by_cases h : m.1 ∈ seen
    · simp only [dedupByToken, if_pos h]
      exact (ih seen).cons m
    · simp only [dedupByToken, if_neg h]
      exact (ih (m.1 :: seen)).cons₂ m

theorem dedupByToken_covers (ms : List (List Char × List Char))
    (seen : List (List Char)) :
    ∀ m ∈ ms, m.1 ∈ seen ∨ m.1 ∈ (dedupByToken ms seen).map Prod.fst := by
  induction ms generalizing seen with
  | nil => simp
  | cons hd rest ih =>
    intro m hm
    by_cases h : hd.1 ∈ seen
    · simp only [dedupByToken, if_pos h]
      rcases List.mem_cons.mp hm with h1 | h2
      · subst h1
        exact Or.inl h
      · exact ih seen m h2
    · simp only [dedupByToken, if_neg h, List.map_cons]
      rcases List.mem_cons.mp hm with h1 | h2
      · subst h1
        exact Or.inr (List.mem_cons_self _ _)
      · rcases ih (hd.1 :: seen) m h2 with hs | hins
        · rcases List.mem_cons.mp hs with h1 | h2'
          · rw [h1]
            exact Or.inr (List.mem_cons_self _ _)
          · exact Or.inl h2'
        · exact Or.inr (List.mem_cons_of_mem _ hins)

/-- C1 (amended): extraction deduplicates by the literal matched token across
the whole text: the kept matches are a subsequence of the occurrence list
with pairwise distinct literal tokens, every occurring token is represented
by its first occurrence, and the extracted values are exactly the kept
matches' numeric submatches.  Overlap suppression holds as claimed: the
token $35.50.25 yields exactly the single value 35.50. -/
theorem ExtractDollarValues_dedups_by_token (text : String) :
    ((dedupByToken (findAllSubmatches text.data) []).map Prod.fst).Nodup ∧
    List.Sublist (dedupByToken (findAllSubmatches text.data) []) (findAllSubmatches text.data) ∧
    (∀ m ∈ findAllSubmatches text.data,
      m.1 ∈ (dedupByToken (findAllSubmatches text.data) []).map Prod.fst) ∧
    ExtractDollarValues text =
      (dedupByToken (findAllSubmatches text.data) []).map (fun mg => parseDecimal mg.2) ∧
    ExtractDollarValues ("$35.50.25") = [71/2] := by
  refine ⟨(dedupByToken_tokens_nodup _ []).1, dedupByToken_sublist _ [], ?_, ?_, ?_⟩
  · intro m hm
    rcases dedupByToken_covers _ [] m hm with h | h
    · cases h
    · exact h
  · by_cases h : text = ""
    · subst h
      rfl
    · simp [ExtractDollarValues, h]
  · have hshape : ExtractDollarValues ("$35.50.25") =
        [(digitsToNat (['3', '5']) : ℚ) + (digitsToNat (['5', '0']) : ℚ) / (10 ^ 2 : ℚ)] :=
      rfl
    have hn1 : digitsToNat (['3', '5']) = 35 := by decide
    have hn2 : digitsToNat (['5', '0']) = 50 := by decide
    rw [hshape, hn1, hn2]
    norm_num

/-- C1 counterexample: the literal token occurs at two distinct positions in
the text, yet extraction returns only one value, so occurrences are not
independent. -/
theorem ExtractDollarValues_occurrence_cex :
    (findAllSubmatches (("$5 $5" : String)).data).length = 2 ∧
    ExtractDollarValues ("$5 $5") = [5] ∧
    ExtractDollarValues ("$5 $5") ≠ [5, 5] := by
  have hshape : ExtractDollarValues ("$5 $5") = [(digitsToNat (['5']) : ℚ)] := rfl
  have hn : digitsToNat (['5']) = 5 := by decide
  have hv : ExtractDollarValues ("$5 $5") = [5] := by
    rw [hshape, hn]
    norm_num
  refine ⟨by decide, hv, ?_⟩
  rw [hv]
  intro hcontra
  exact absurd (congrArg List.length hcontra) (by decide)

/-- The ASCII whitespace class of the Go regexp escape used by the
command normalizer (tab, newline, form feed, carriage return, space). -/
def isRegexSpace (c : Char) : Bool :=
  c = ' ' || c = '\t' || c = '\n' || c = '\x0c' || c = '\r'

/-- ASCII whitespace trimmed by Go's strings.TrimSpace (unicode.IsSpace
restricted to ASCII: the regex class plus vertical tab). -/
def isTrimSpace (c : Char) : Bool :=
  c = ' ' || c = '\t' || c = '\n' || c = '\x0b' || c = '\x0c' || c = '\r'

/-- Go strings.TrimSpace. -/
def trimSpace (s : String) : String :=
  String.mk (((s.data.dropWhile isTrimSpace).reverse.dropWhile isTrimSpace).reverse)

/-- Replacement of every maximal run of regex whitespace by a single space,
modelling ReplaceAllString with the whitespace-run pattern
(src/unnamed/part_004:40-41). -/
def collapseSpaces : List Char → List Char
  | [] => []
  | [c] => if isRegexSpace c then [' '] else [c]
  | c1 :: c2 :: rest =>
    if isRegexSpace c1 && isRegexSpace c2 then collapseSpaces (c2 :: rest)
    else (if isRegexSpace c1 then ' ' else c1) :: collapseSpaces (c2 :: rest)

/-- The whitespace normalization at the top of ParseConfigCommand
(part_004:38-41): trim, then collapse whitespace runs. -/
def normalizeCmd (s : String) : String :=
  String.mk (collapseSpaces (trimSpace s).data)

/-- Go strings.HasPrefix(strings.ToLower(s), pre), for lowercase pre. -/
def startsWithCI (s pre : String) : Bool :=
  pre.data.isPrefixOf (toLowerStr s).data

/-- Character-list drop on a string, modelling Go ASCII slicing s[n:]. -/
def strDrop (s : String) (n : Nat) : String :=
  String.mk (s.data.drop n)

/-- The error kinds of the command parser (part_004:17-29). -/
inductive CmdErr where
  | invalidCommand
  | missingItem
  | missingPrice
  | invalidPrice
  deriving DecidableEq, Repr

/-- The values strconv.ParseFloat can hand back to the command parser: a
finite float64 (its numeric value, kept exact), an infinity, or NaN. -/
inductive GoFloat where
  | finite (q : ℚ)
  | posInf
  | negInf
  | nan
  deriving DecidableEq, Repr

/-- The IEEE comparison price less-or-equal zero performed at part_004:117:
false for NaN (every NaN comparison is false) and for positive infinity. -/
def goFloatLeZero : GoFloat → Bool
  | .finite q => decide (q ≤ 0)
  | .posInf => false
  | .negInf => true
  | .nan => false

/-- Spec-side notion for stating the claim: a parsed price that is a
positive finite number, which the claim asserts every successful command
produces. -/
def goFloatIsPosFinite : GoFloat → Bool
  | .finite q => decide (0 < q)
  | _ => false

/-- CommandParseResult (part_004:11-15); ItemPrice is a float64. -/
structure CommandParseResult where
  itemName : String
  itemPrice : GoFloat
  deriving DecidableEq, Repr

/-- Range behavior of ParseFloat's correctly-rounded conversion of an exact
decimal or hexadecimal value v: magnitudes at or beyond
maxFloat64 + half an ulp, i.e. (2^54-1)*2^970, round to infinity and make
ParseFloat return ErrRange (an error, part_004:112 only tests err != nil);
nonzero magnitudes at or below half the smallest subnormal, 2^-1075, round
to (signed) zero with no error.  In-range finite values are kept exact
rather than rounded to the nearest binary64: rounding preserves the sign,
which is all the parser inspects. -/
def clampRange (v : ℚ) : Option GoFloat :=
  if (2 ^ 54 - 1) * 2 ^ 970 ≤ |v| then none
  else if v ≠ 0 ∧ |v| ≤ 1 / 2 ^ 1075 then some (.finite 0)
  else some (.finite v)

def isHexDigit (c : Char) : Bool :=
  c.isDigit || (('a' ≤ c.toLower) && (c.toLower ≤ 'f'))

/-- Numeric value of a hex-digit list, interpreted in base 16. -/
def hexDigitsToNat (l : List Char) : Nat :=
  l.foldl
    (fun acc c =>
      acc * 16 + (if c.isDigit then c.toNat - 48 else c.toLower.toNat - 87)) 0

/-- One step of strconv's underscoreOK scan: the state records what was just
seen (start of number, digit or base prefix, underscore, anything else);
an underscore is legal only between digits (or right after a base prefix). -/
def underscoreStep (hex : Bool) (saw c : Char) : Option Char :=
  if c.isDigit || (hex && (('a' ≤ c.toLower) && (c.toLower ≤ 'f'))) then some '0'
  else if c = '_' then (if saw = '0' then some '_' else none)
  else if saw = '_' then none
  else some '!'

def underscoreLoop (hex : Bool) : Char → List Char → Bool
  | saw, [] => saw ≠ '_'
  | saw, c :: rest =>
    match underscoreStep hex saw c with
    | none => false
    | some saw2 => underscoreLoop hex saw2 rest

/-- strconv's underscoreOK validator: underscores may only separate
successive digits, or follow a base prefix. -/
def underscoreOK (l : List Char) : Bool :=
  let l1 : List Char :=
    match l with
    | '+' :: t => t
    | '-' :: t => t
    | t => t
  match l1 with
  | '0' :: c :: rest =>
    if c.toLower = 'x' ∨ c.toLower = 'b' ∨ c.toLower = 'o' then
      underscoreLoop (c.toLower = 'x') '0' rest
    else underscoreLoop false '^' l1
  | _ => underscoreLoop false '^' l1

/-- ParseFloat's special spellings, matched first and case-insensitively:
"inf" and "infinity" with an optional sign, and unsigned "nan" (strconv's
special() falls through from the sign case straight to the infinity check,
so a signed nan is not special and fails the ordinary syntax instead). -/
def parseSpecial (cs : List Char) : Option GoFloat :=
  let low := cs.map Char.toLower
  if low = ('n' :: 'a' :: 'n' :: []) then some .nan
  else
    let signAndRest : Bool × List Char :=
      match low with
      | '+' :: t => (false, t)
      | '-' :: t => (true, t)
      | t => (false, t)
    if signAndRest.2 = ('i' :: 'n' :: 'f' :: []) ∨
        signAndRest.2 = (("infinity") : String).data then
      some (if signAndRest.1 then .negInf else .posInf)
    else none

/-- Ordinary decimal syntax after the optional sign: digits with at most one
dot (at least one digit somewhere), then an optional decimal exponent that
must consume the rest of the token. -/
def parseDecTail (sign : ℚ) (cs1 : List Char) : Option GoFloat :=
  let ip := cs1.takeWhile Char.isDigit
  let cs2 := cs1.drop ip.length
  let fpAndRest : List Char × List Char :=
    match cs2 with
    | '.' :: t => (t.takeWhile Char.isDigit, t.drop (t.takeWhile Char.isDigit).length)
    | t => ([], t)
  let fp := fpAndRest.1
  let cs3 := fpAndRest.2
  if ip = [] ∧ fp = [] then none
  else
    let mant : ℚ := (digitsToNat ip : ℚ) + (digitsToNat fp : ℚ) / (10 ^ fp.length : ℚ)
    match cs3 with
    | [] => clampRange (sign * mant)
    | e :: t =>
      if e = 'e' ∨ e = 'E' then
        let esignAndRest : ℤ × List Char :=
          match t with
          | '+' :: t1 => (1, t1)
          | '-' :: t1 => (-1, t1)
          | t1 => (1, t1)
        let ed := esignAndRest.2.takeWhile Char.isDigit
        if ed = [] ∨ esignAndRest.2.drop ed.length ≠ [] then none
        else clampRange (sign * mant * (10 : ℚ) ^ (esignAndRest.1 * (digitsToNat ed : ℤ)))
      else none

/-- Hexadecimal syntax after the sign and the 0x prefix: hex digits with at
most one dot (at least one hex digit somewhere), then the mandatory binary
exponent p. -/
def parseHexTail (sign : ℚ) (rest : List Char) : Option GoFloat :=
  let ip := rest.takeWhile isHexDigit
  let cs2 := rest.drop ip.length
  let fpAndRest : List Char × List Char :=
    match cs2 with
    | '.' :: t => (t.takeWhile isHexDigit, t.drop (t.takeWhile isHexDigit).length)
    | t => ([], t)
  let fp := fpAndRest.1
  let cs3 := fpAndRest.2
  if ip = [] ∧ fp = [] then none
  else
    let mant : ℚ := (hexDigitsToNat ip : ℚ) + (hexDigitsToNat fp : ℚ) / (16 ^ fp.length : ℚ)
    match cs3 with
    | [] => none
    | p :: t =>
      if p = 'p' ∨ p = 'P' then
        let esignAndRest : ℤ × List Char :=
          match t with
          | '+' :: t1 => (1, t1)
          | '-' :: t1 => (-1, t1)
          | t1 => (1, t1)
        let ed := esignAndRest.2.takeWhile Char.isDigit
        if ed = [] ∨ esignAndRest.2.drop ed.length ≠ [] then none
        else clampRange (sign * mant * (2 : ℚ) ^ (esignAndRest.1 * (digitsToNat ed : ℤ)))
      else none

/-- Number syntax with the underscores already removed: optional sign, then
either the hex form behind a 0x/0X prefix or the decimal form. -/
def parseNumeric (cs : List Char) : Option GoFloat :=
  let signAndRest : ℚ × List Char :=
    match cs with
    | '+' :: t => (1, t)
    | '-' :: t => (-1, t)
    | t => (1, t)
  match signAndRest.2 with
  | '0' :: c :: rest =>
    if c = 'x' ∨ c = 'X' then parseHexTail signAndRest.1 rest
    else parseDecTail signAndRest.1 ('0' :: c :: rest)
  | t => parseDecTail signAndRest.1 t

/-- Go's strconv.ParseFloat (64-bit) as called at part_004:111, over exact
values: the special NaN/infinity spellings, decimal and 0x-prefixed
hexadecimal mantissas, digit-separating underscores validated as in
strconv's underscoreOK, and the range behavior of the final rounding
(ErrRange on overflow, signed zero on deep underflow) modelled by
clampRange.  none stands for a non-nil error (syntax or range), which is
all the caller tests. -/
def parseGoFloat (s : String) : Option GoFloat :=
  match parseSpecial s.data with
  | some v => some v
  | none =>
    if s.data.contains '_' && !underscoreOK s.data then none
    else parseNumeric (s.data.filter (fun c => c ≠ '_'))

/-- Item-name extraction of ParseConfigCommand (part_004:58-90): a quoted
name must match a one-or-more-character quoted group (an unclosed or empty
quote is an invalid command); an unquoted name is the first space-separated
word, rejected when it starts with the keyword "price"; the remaining text
is returned trimmed. -/
def itemNameStage (text : String) : Except CmdErr (String × String) :=
  match text.data with
  | '"' :: rest =>
    let inner := rest.takeWhile (fun c => c ≠ '"')
    if inner = [] then .error .invalidCommand
    else
      match rest.drop inner.length with
      | '"' :: after => .ok (String.mk inner, trimSpace (String.mk after))
      | _ => .error .invalidCommand
  | _ =>
    let word := text.data.takeWhile (fun c => c ≠ ' ')
    if word = [] || startsWithCI (String.mk word) ("price") then .error .missingItem
    else
      match text.data.drop word.length with
      | _ :: after => .ok (String.mk word, trimSpace (String.mk after))
      | [] => .ok (String.mk word, "")

/-- The price-keyword and price-value handling of ParseConfigCommand
(part_004:87-125).  The code locates "price" by its first index in the
lowercased remainder; the preceding prefix check forces that index to be 0,
so the slice after the keyword is the drop of five characters. -/
def parsePriceStage (itemName remaining : String) : Except CmdErr CommandParseResult :=
  if itemName = "" then .error .missingItem
  else if remaining = "" then .error .missingPrice
  else if startsWithCI remaining ("price") = false then .error .invalidCommand
  else
    if trimSpace (strDrop remaining 5) = "" then .error .missingPrice
    else
      match parseGoFloat (trimSpace (strDrop remaining 5)) with
      | none => .error .invalidPrice
      | some price =>
        if goFloatLeZero price then .error .invalidPrice
        else .ok { itemName := itemName, itemPrice := price }

/-- ParseConfigCommand (src/unnamed/part_004:35-126). -/
def ParseConfigCommand (commandText : String) : Except CmdErr CommandParseResult :=
  if startsWithCI (normalizeCmd commandText) ("item") = false then
    .error .invalidCommand
  else if startsWithCI (trimSpace (strDrop (normalizeCmd commandText) 4)) ("price") then
    .error .missingItem
  else
    match itemNameStage (trimSpace (strDrop (normalizeCmd commandText) 4)) with
    | .error e => .error e
    | .ok (itemName, remaining) => parsePriceStage itemName remaining

theorem itemNameStage_unclosed (r : String) (hq : r.data.head? = some ('"'))
    (hnq : ('"') ∉ r.data.drop 1) :
    itemNameStage r = .error .invalidCommand := by
  cases hd : r.data with
  | nil =>
    rw [hd] at hq
    cases hq
  | cons c tail =>
    rw [hd] at hq
    have hc : c = '"' := by simpa using hq
    subst hc
    rw [hd] at hnq
    have hnq' : ('"') ∉ tail := by simpa using hnq
    have htw : tail.takeWhile (fun c => c ≠ '"') = tail := by
      rw [List.takeWhile_eq_self_iff]
      intro x hx
      simp only [ne_eq, decide_eq_true_eq]
      intro he
      subst he
      exact hnq' hx
    unfold itemNameStage
    rw [hd]
    simp only [htw, List.drop_length]
    by_cases ht : tail = []
    · subst ht
      rfl
    · rw [if_neg ht]

/-- C8 (amended): the command parser's error mapping, stage by stage: a
missing "item" keyword is an invalid command; "price" where the item name
should be is a missing item; an unclosed quote is an invalid command; an
empty remainder after the item name is a missing price; a price token
ParseFloat rejects — syntactically malformed, or of out-of-float64-range
magnitude (ErrRange) — is an invalid price; a parsed price p with p <= 0
under the IEEE comparison is an invalid price; and otherwise the command
succeeds with the item name as extracted (case untouched) and the parsed
price p — which, because ParseFloat also accepts the NaN and infinity
spellings (for which p <= 0 is false), need not be a positive finite
number. -/
theorem ParseConfigCommand_errors (text itemName remaining : String) (p : GoFloat) :
    (startsWithCI (normalizeCmd text) ("item") = false →
      ParseConfigCommand text = .error .invalidCommand) ∧
    (startsWithCI (normalizeCmd text) ("item") = true →
      (startsWithCI (trimSpace (strDrop (normalizeCmd text) 4)) ("price") = true →
        ParseConfigCommand text = .error .missingItem) ∧
      (startsWithCI (trimSpace (strDrop (normalizeCmd text) 4)) ("price") = false →
        ((trimSpace (strDrop (normalizeCmd text) 4)).data.head? = some ('"') →
          ('"') ∉ (trimSpace (strDrop (normalizeCmd text) 4)).data.drop 1 →
          ParseConfigCommand text = .error .invalidCommand) ∧
        (itemNameStage (trimSpace (strDrop (normalizeCmd text) 4)) =
            .ok (itemName, remaining) →
          itemName ≠ "" →
          (remaining = "" → ParseConfigCommand text = .error .missingPrice) ∧
          (startsWithCI remaining ("price") = true →
            trimSpace (strDrop remaining 5) ≠ "" →
            (parseGoFloat (trimSpace (strDrop remaining 5)) = none →
              ParseConfigCommand text = .error .invalidPrice) ∧
            (parseGoFloat (trimSpace (strDrop remaining 5)) = some p →
              (goFloatLeZero p = true →
                ParseConfigCommand text = .error .invalidPrice) ∧
              (goFloatLeZero p = false → ParseConfigCommand text =
                .ok { itemName := itemName, itemPrice := p })))))) := by
  constructor
  · intro h
    unfold ParseConfigCommand
    rw [h]
    rfl
  · intro hitem
    constructor
    · intro hpr
      unfold ParseConfigCommand
      rw [hitem, hpr]
      rfl
    · intro hpr
      constructor
      · intro hq hnq
        have hin := itemNameStage_unclosed _ hq hnq
        unfold ParseConfigCommand
        rw [hitem, hpr, hin]
        rfl
      · intro hok hn
        have hmain : ParseConfigCommand text = parsePriceStage itemName remaining := by
          unfold ParseConfigCommand
          rw [hitem, hpr, hok]
          rfl
        constructor
        · intro hrem
          rw [hmain]
          unfold parsePriceStage
          rw [if_neg hn, hrem]
          rfl
        · intro hpw hpt
          have hrne : ¬(remaining = "") := by
            intro h0
            rw [h0] at hpw
            exact absurd hpw (by decide)
          have hpwne : ¬(startsWithCI remaining ("price") = false) := by
            rw [hpw]
            decide
          constructor
          · intro hnone
            rw [hmain]
            unfold parsePriceStage
            rw [if_neg hn, if_neg hrne, if_neg hpwne, if_neg hpt, hnone]
          · intro hsome
            constructor
            · intro hle
              rw [hmain]
              unfold parsePriceStage
              rw [if_neg hn, if_neg hrne, if_neg hpwne, if_neg hpt, hsome]
              show (if goFloatLeZero p then Except.error CmdErr.invalidPrice
                else Except.ok (CommandParseResult.mk itemName p)) =
                  Except.error CmdErr.invalidPrice
              rw [if_pos hle]
            · intro hfl
              rw [hmain]
              unfold parsePriceStage
              rw [if_neg hn, if_neg hrne, if_neg hpwne, if_neg hpt, hsome]
              show (if goFloatLeZero p then Except.error CmdErr.invalidPrice
                else Except.ok (CommandParseResult.mk itemName p)) =
                  Except.ok (CommandParseResult.mk itemName p)
              rw [if_neg (by rw [hfl]; decide)]

theorem ParseConfigCommand_errors_witness :
    ParseConfigCommand ("item coffee price 5.00") =
      .ok { itemName := ("coffee"), itemPrice := .finite 5 } := by
  have h := ParseConfigCommand_errors ("item coffee price 5.00") ("coffee")
    ("price 5.00") (.finite 5)
  have hshape : parseGoFloat (trimSpace (strDrop ("price 5.00") 5)) =
      clampRange ((1 : ℚ) * ((digitsToNat (['5']) : ℚ) +
        (digitsToNat (['0', '0']) : ℚ) / (10 ^ 2 : ℚ))) := rfl
  have h5 : digitsToNat (['5']) = 5 := by decide
  have h00 : digitsToNat (['0', '0']) = 0 := by decide
  have hval : (1 : ℚ) * ((digitsToNat (['5']) : ℚ) +
      (digitsToNat (['0', '0']) : ℚ) / (10 ^ 2 : ℚ)) = 5 := by
    rw [h5, h00]
    norm_num
  have hpf : parseGoFloat (trimSpace (strDrop ("price 5.00") 5)) =
      some (.finite 5) := by
    rw [hshape, hval]
    unfold clampRange
    rw [if_neg (by norm_num), if_neg (by norm_num)]
  have hfl : goFloatLeZero (.finite 5) = false := by
    simp only [goFloatLeZero, decide_eq_false_iff_not]
    norm_num
  exact ((((h.2 (by decide)).2 (by decide)).2 (by decide) (by decide)).2 (by decide)
    (by decide)).2 hpf |>.2 hfl

/-- C8 counterexample: the price token nan is accepted by ParseFloat, and
NaN is not less-or-equal zero under the IEEE comparison, so the command
succeeds with ItemPrice NaN: neither the claimed InvalidPrice for a
non-numeric token nor a return of a positive price.  The numeric token
1e400 conversely overflows float64, ParseFloat reports ErrRange, and the
parser answers InvalidPrice. -/
theorem ParseConfigCommand_nan_cex :
    ParseConfigCommand ("item coffee price nan") =
      .ok { itemName := ("coffee"), itemPrice := .nan } ∧
    goFloatIsPosFinite GoFloat.nan = false ∧
    ParseConfigCommand ("item coffee price 1e400") = .error .invalidPrice := by
  refine ⟨by decide, by decide, ?_⟩
  have hshape : parseGoFloat (trimSpace (strDrop ("price 1e400") 5)) =
      clampRange ((1 : ℚ) * ((digitsToNat (['1']) : ℚ) +
        (digitsToNat ([] : List Char) : ℚ) / (10 ^ 0 : ℚ)) *
        (10 : ℚ) ^ ((1 : ℤ) * (digitsToNat (['4', '0', '0']) : ℤ))) := rfl
  have h1 : digitsToNat (['1']) = 1 := by decide
  have h400 : digitsToNat (['4', '0', '0']) = 400 := by decide
  have h0 : digitsToNat ([] : List Char) = 0 := by decide
  have hval : (1 : ℚ) * ((digitsToNat (['1']) : ℚ) +
      (digitsToNat ([] : List Char) : ℚ) / (10 ^ 0 : ℚ)) *
      (10 : ℚ) ^ ((1 : ℤ) * (digitsToNat (['4', '0', '0']) : ℤ)) = 10 ^ 400 := by
    rw [h1, h400, h0]
    norm_num
  have hpf : parseGoFloat (trimSpace (strDrop ("price 1e400") 5)) = none := by
    rw [hshape, hval]
    unfold clampRange
    rw [if_pos (by norm_num)]
  have hmain : ParseConfigCommand ("item coffee price 1e400") =
      parsePriceStage ("coffee") ("price 1e400") := by
    have hok : itemNameStage (trimSpace (strDrop
        (normalizeCmd ("item coffee price 1e400")) 4)) =
        .ok (("coffee"), ("price 1e400")) := by decide
    unfold ParseConfigCommand
    rw [if_neg (by decide), if_neg (by decide), hok]
  rw [hmain]
  unfold parsePriceStage
  rw [if_neg (by decide), if_neg (by decide), if_neg (by decide),
    if_neg (by decide), hpf]

theorem dropWhile_eq_self_of_head (p : Char → Bool) (l : List Char)
    (h : ∀ c ∈ l.head?, p c = false) : l.dropWhile p = l := by
  cases l with
  | nil => rfl
  | cons c t =>
    have hc : p c = false := h c rfl
    rw [List.dropWhile_cons, hc]
    simp

theorem isRegexSpace_false_of_trim (c : Char) (h : isTrimSpace c = false) :
    isRegexSpace c = false := by
  cases hr : isRegexSpace c
  · rfl
  · exfalso
    have htr : isTrimSpace c = true := by
      simp only [isRegexSpace, Bool.or_eq_true, decide_eq_true_eq] at hr
      simp only [isTrimSpace, Bool.or_eq_true, decide_eq_true_eq]
      tauto
    rw [htr] at h
    cases h

theorem collapse_cons_nonspace (c : Char) (l : List Char)
    (h : isRegexSpace c = false) :
    collapseSpaces (c :: l) = c :: collapseSpaces l := by
  cases l with
  | nil => simp [collapseSpaces, h]
  | cons d t => simp [collapseSpaces, h]

theorem collapse_space_cons (c : Char) (l : List Char)
    (h : isRegexSpace c = false) :
    collapseSpaces (' ' :: c :: l) = ' ' :: collapseSpaces (c :: l) := by
  simp [collapseSpaces, h, (show isRegexSpace (' ') = true by decide)]

theorem collapse_nonspace_id (l : List Char)
    (h : ∀ c ∈ l, isRegexSpace c = false) :
    collapseSpaces l = l := by
  induction l with
  | nil => rfl
  | cons c t ih =>
    rw [collapse_cons_nonspace c t (h c (List.mem_cons_self c t))]
    rw [ih (fun d hd => h d (List.mem_cons_of_mem c hd))]

theorem collapse_word_space (w rest : List Char)
    (hw : ∀ c ∈ w, isRegexSpace c = false)
    (hr : ∀ c ∈ rest.head?, isRegexSpace c = false) (hne : rest ≠ []) :
    collapseSpaces (w ++ ' ' :: rest) = w ++ ' ' :: collapseSpaces rest := by
  induction w with
  | nil =>
    cases rest with
    | nil => exact absurd rfl hne
    | cons c t =>
      have hc : isRegexSpace c = false := hr c rfl
      simpa using collapse_space_cons c t hc
  | cons c wt ih =>
    rw [List.cons_append, collapse_cons_nonspace c _ (hw c (List.mem_cons_self c wt))]
    rw [ih (fun d hd => hw d (List.mem_cons_of_mem c hd))]
    rfl

theorem trimSpace_eq_self (s : String)
    (h1 : ∀ c ∈ s.data.head?, isTrimSpace c = false)
    (h2 : ∀ c ∈ s.data.getLast?, isTrimSpace c = false) :
    trimSpace s = s := by
  unfold trimSpace
  rw [dropWhile_eq_self_of_head _ _ h1]
  rw [dropWhile_eq_self_of_head _ _ (by rw [List.head?_reverse]; exact h2)]
  rw [List.reverse_reverse]

theorem trimSpace_drop_front (l : List Char)
    (h1 : ∀ c ∈ l.head?, isTrimSpace c = false)
    (h2 : ∀ c ∈ l.getLast?, isTrimSpace c = false) :
    trimSpace (String.mk (' ' :: l)) = String.mk l := by
  unfold trimSpace
  show String.mk ((((' ' :: l).dropWhile isTrimSpace).reverse.dropWhile
    isTrimSpace).reverse) = _
  rw [List.dropWhile_cons, if_pos (show isTrimSpace (' ') = true by decide)]
  rw [dropWhile_eq_self_of_head _ _ h1]
  rw [dropWhile_eq_self_of_head _ _ (by rw [List.head?_reverse]; exact h2)]
  rw [List.reverse_reverse]

theorem mem_of_getLast_eq {α : Type} {l : List α} {c : α}
    (h : l.getLast? = some c) : c ∈ l := by
  rcases List.getLast?_eq_some_iff.mp h with ⟨ys, hys⟩
  subst hys
  simp

theorem getLast?_append_right {α : Type} (l1 l2 : List α) (h : l2 ≠ []) :
    (l1 ++ l2).getLast? = l2.getLast? := by
  rw [List.getLast?_append]
  cases hh : l2.getLast? with
  | none => exact absurd (List.getLast?_eq_none_iff.mp hh) h
  | some c => rfl

/-- C10: a grammatical command of the shape item X price P whose unquoted
single-word item name X begins, case-insensitively, with "price" is rejected
with MissingItem: the item position is tested by a prefix match on the
keyword (part_004:53-56) rather than by whole-token comparison. -/
theorem ParseConfigCommand_priceLikeName (X P : String)
    (hX : X ≠ "") (hXw : ∀ c ∈ X.data, isTrimSpace c = false)
    (hXp : startsWithCI X ("price") = true)
    (hP : P ≠ "") (hPw : ∀ c ∈ P.data, isTrimSpace c = false) :
    ParseConfigCommand ("item " ++ (X ++ (" price " ++ P))) =
      .error .missingItem := by
  have hXd : X.data ≠ [] := fun hnil => hX (congrArg String.mk hnil)
  have hPd : P.data ≠ [] := fun hnil => hP (congrArg String.mk hnil)
  obtain ⟨x0, xt, hXdd⟩ : ∃ a l, X.data = a :: l := by
    cases hx : X.data with
    | nil => exact absurd hx hXd
    | cons a l => exact ⟨a, l, rfl⟩
  have hx0mem : x0 ∈ X.data := by
    rw [hXdd]
    exact List.mem_cons_self x0 xt
  obtain ⟨p0, pt, hPdd⟩ : ∃ a l, P.data = a :: l := by
    cases hp : P.data with
    | nil => exact absurd hp hPd
    | cons a l => exact ⟨a, l, rfl⟩
  have hp0mem : p0 ∈ P.data := by
    rw [hPdd]
    exact List.mem_cons_self p0 pt
  have hXns : ∀ c ∈ X.data, isRegexSpace c = false :=
    fun c hc => isRegexSpace_false_of_trim c (hXw c hc)
  have hPns : ∀ c ∈ P.data, isRegexSpace c = false :=
    fun c hc => isRegexSpace_false_of_trim c (hPw c hc)
  have hsdata : (("item " ++ (X ++ (" price " ++ P))) : String).data
      = 'i' :: 't' :: 'e' :: 'm' :: ' ' :: (X.data ++
          (' ' :: ('p' :: 'r' :: 'i' :: 'c' :: 'e' :: (' ' :: P.data)))) := rfl
  have hlastP : ∀ c ∈ P.data.getLast?, isTrimSpace c = false := by
    intro c hc
    exact hPw c (mem_of_getLast_eq hc)
  have hmid : ∀ (l : List Char), (l ++ P.data).getLast? = P.data.getLast? :=
    fun l => getLast?_append_right l P.data hPd
  have htrim : trimSpace ("item " ++ (X ++ (" price " ++ P)))
      = ("item " ++ (X ++ (" price " ++ P))) := by
    apply trimSpace_eq_self
    · rw [hsdata]
      intro c hc
      simp only [List.head?_cons, Option.mem_def, Option.some.injEq] at hc
      rw [← hc]
      decide
    · have hsplit : (("item " ++ (X ++ (" price " ++ P))) : String).data
          = ('i' :: 't' :: 'e' :: 'm' :: ' ' :: (X.data ++ [' ','p','r','i','c','e',' '])) ++
              P.data := by
        rw [hsdata]
        simp [List.append_assoc]
      rw [hsplit, hmid]
      exact hlastP
  have hheadX : ∀ c ∈ (X.data ++
      (' ' :: (['p','r','i','c','e'] ++ (' ' :: P.data)))).head?,
      isRegexSpace c = false := by
    rw [hXdd]
    intro c hc
    simp only [List.cons_append, List.head?_cons, Option.mem_def,
      Option.some.injEq] at hc
    rw [← hc]
    exact hXns x0 hx0mem
  have hneX : (X.data ++ (' ' :: (['p','r','i','c','e'] ++ (' ' :: P.data)))) ≠ [] := by
    rw [hXdd]
    simp
  have hheadPr : ∀ c ∈ ((['p','r','i','c','e'] : List Char) ++
      (' ' :: P.data)).head?, isRegexSpace c = false := by
    intro c hc
    simp only [List.cons_append, List.head?_cons, Option.mem_def,
      Option.some.injEq] at hc
    rw [← hc]
    decide
  have hheadP : ∀ c ∈ P.data.head?, isRegexSpace c = false := by
    rw [hPdd]
    intro c hc
    simp only [List.head?_cons, Option.mem_def, Option.some.injEq] at hc
    rw [← hc]
    exact hPns p0 hp0mem
  have hcoll : collapseSpaces (("item " ++ (X ++ (" price " ++ P))) : String).data
      = (("item " ++ (X ++ (" price " ++ P))) : String).data := by
    rw [hsdata]
    show collapseSpaces (['i','t','e','m'] ++ ' ' :: (X.data ++
      (' ' :: (['p','r','i','c','e'] ++ (' ' :: P.data))))) = _
    rw [collapse_word_space (['i','t','e','m']) _ (by decide) hheadX hneX]
    rw [collapse_word_space X.data _ hXns hheadPr (by simp)]
    rw [collapse_word_space (['p','r','i','c','e']) _ (by decide) hheadP hPd]
    rw [collapse_nonspace_id P.data hPns]
    rfl
  have hnorm : normalizeCmd ("item " ++ (X ++ (" price " ++ P)))
      = ("item " ++ (X ++ (" price " ++ P))) := by
    unfold normalizeCmd
    rw [htrim, hcoll]
  have hitem : startsWithCI ("item " ++ (X ++ (" price " ++ P))) ("item") = true := by
    unfold startsWithCI toLowerStr
    rw [hsdata]
    rfl
  have hdrop : strDrop ("item " ++ (X ++ (" price " ++ P))) 4
      = String.mk (' ' :: (X.data ++
          (' ' :: ('p' :: 'r' :: 'i' :: 'c' :: 'e' :: (' ' :: P.data))))) := by
    unfold strDrop
    rw [hsdata]
    rfl
  have hrest : trimSpace (strDrop ("item " ++ (X ++ (" price " ++ P))) 4)
      = String.mk (X.data ++ (' ' :: ('p' :: 'r' :: 'i' :: 'c' :: 'e' :: (' ' :: P.data)))) := by
    rw [hdrop]
    apply trimSpace_drop_front
    · rw [hXdd]
      intro c hc
      simp only [List.cons_append, List.head?_cons, Option.mem_def,
        Option.some.injEq] at hc
      rw [← hc]
      exact hXw x0 hx0mem
    · have e2 : (X.data ++ (' ' :: ('p' :: 'r' :: 'i' :: 'c' :: 'e' :: (' ' :: P.data))))
          = (X.data ++ [' ','p','r','i','c','e',' ']) ++ P.data := by
        simp [List.append_assoc]
      rw [e2, hmid]
      exact hlastP
  have hpr : startsWithCI
      (trimSpace (strDrop ("item " ++ (X ++ (" price " ++ P))) 4)) ("price") = true := by
    rw [hrest]
    unfold startsWithCI toLowerStr
    show List.isPrefixOf (("price").data)
      (List.map Char.toLower (X.data ++
        (' ' :: ('p' :: 'r' :: 'i' :: 'c' :: 'e' :: (' ' :: P.data))))) = true
    rw [List.map_append]
    have hXp' : List.IsPrefix (("price").data) (List.map Char.toLower X.data) := by
      rw [← List.isPrefixOf_iff_prefix]
      exact hXp
    rw [ List.isPrefixOf_iff_prefix]
    exact hXp'.trans (List.prefix_append _ _)
  unfold ParseConfigCommand
  rw [hnorm, hitem, hpr]
  rfl

theorem ParseConfigCommand_priceLikeName_witness :
    ParseConfigCommand ("item pricey price 5") = .error .missingItem :=
  ParseConfigCommand_priceLikeName ("pricey") ("5") (by decide) (by decide)
    (by decide) (by decide) (by decide)

end Snagbot
